import Mathlib

/-!
Formal model of `src/syslog_injector.cpp` (a synthetic syslog load injector).

The C++ program is shallowly embedded as follows.

* C++ `std::string` values are modelled as `List Char`; `std::string::find`
  and `std::string::replace` become `strFind` and `replaceFirst`.
* `format_message` takes the ambient timestamp / hostname / pid strings as
  explicit arguments (in C++ they are read from the clock, `gethostname` and
  `getpid` inside the function).
* The config parser `load_config` works on the list of lines of the file;
  `std::stoi` is modelled by `stoi`, returning `none` when the C++ call would
  throw (a propagated fatal parse error).
* C++ `int` arithmetic in the batch-interval computation is modelled with
  mathematical integers plus an explicit 32-bit twos-complement wrap
  (`int32ofInt`); C++ integer division truncates toward zero (`Int.tdiv`).
* The pacing loop `run_test` is modelled as a fuel-indexed interpreter over
  an oracle `World` that supplies the outcome of every `connect` call, the
  return value of every `send` call, every read of the atomic `running` flag
  and the elapsed-seconds reading of every duration check.  Console output is
  not modelled (it never changes program state); the model records instead
  whether the final-statistics snapshot would have been printed.
* Statistics rates in `print_stats` are floating-point in C++; they are
  modelled with exact rationals, keeping the conditional structure of the code.
-/

namespace SyslogInjector

/-- Characters removed by the trimming code of the config parser
(`find_first_not_of(" \t")` / `find_last_not_of(" \t")`). -/
def isSpaceTab (c : Char) : Bool := c = ' ' || c = '\t'

/-- Trim leading and trailing spaces/tabs, as the two `erase` calls in
`load_config` do. -/
def trim (s : List Char) : List Char :=
  ((s.dropWhile isSpaceTab).reverse.dropWhile isSpaceTab).reverse

/-- Model of `std::string::find(pat)`: index of the first occurrence of
`pat`, or `none` for `npos`. -/
def strFind (pat : List Char) : List Char → Option Nat
  | [] => if pat.isPrefixOf ([] : List Char) then some 0 else none
  | c :: rest =>
    if pat.isPrefixOf (c :: rest) then some 0
    else (strFind pat rest).map (· + 1)

/-- Model of `result.replace(pos, pat.length, repl)` guarded by
`find(pat) != npos`: replace the first occurrence of `pat` (if any) by
`repl`. -/
def replaceFirst (hay pat repl : List Char) : List Char :=
  match strFind pat hay with
  | none => hay
  | some i => hay.take i ++ repl ++ hay.drop (i + pat.length)

/-- Model of `format_message` (src lines 85-123): the template is copied and
each of the four recognized placeholders is replaced at its first occurrence,
in the order `{counter}`, `{timestamp}`, `{hostname}`, `{pid}`.  The ambient
timestamp, hostname and pid strings are passed as arguments `ts`, `host`,
`pid`. -/
def format_message (format_template : List Char) (counter : Nat)
    (ts host pid : List Char) : List Char :=
  let r1 := replaceFirst format_template "{counter}".toList (Nat.repr counter).toList
  let r2 := replaceFirst r1 "{timestamp}".toList ts
  let r3 := replaceFirst r2 "{hostname}".toList host
  replaceFirst r3 "{pid}".toList pid

/-- Model of the C++ `Config` struct (src lines 20-27).  The three numeric
fields are C++ `int`s, modelled as mathematical integers (wrapping is applied
explicitly where the code can overflow). -/
structure Config where
  socket_path : List Char
  message_format : List Char
  target_rate : Int
  duration : Int
  batch_size : Int
  verbose : Bool
deriving DecidableEq

/-- The default configuration values set at the top of `load_config`
(src lines 43-48). -/
def defaultConfig : Config where
  socket_path := "/tmp/fluentbit.sock".toList
  message_format :=
    "<134>1 {timestamp} {hostname} test-app {pid} - - Test message #{counter}".toList
  target_rate := 1000
  duration := 60
  batch_size := 100
  verbose := false

/-- Digits consumed by `std::stoi` after the optional sign. -/
def takeDigits (s : List Char) : List Char := s.takeWhile Char.isDigit

/-- Decimal value of a digit string. -/
def digitsToNat (l : List Char) : Nat :=
  l.foldl (fun acc c => acc * 10 + (c.toNat - 48)) 0

/-- Model of `std::stoi`: skip leading whitespace, optional sign, then at
least one decimal digit (further characters are ignored); `none` models the
`std::invalid_argument` exception, which the program does not catch. -/
def stoi (s : List Char) : Option Int :=
  match s.dropWhile isSpaceTab with
  | '-' :: rest =>
    let d := takeDigits rest
    if d = [] then none else some (-(digitsToNat d : Int))
  | '+' :: rest =>
    let d := takeDigits rest
    if d = [] then none else some (digitsToNat d : Int)
  | t =>
    let d := takeDigits t
    if d = [] then none else some (digitsToNat d : Int)

/-- Split a line at its first `'='` (`line.find('=')` + the two `substr`
calls); `none` models `npos`, in which case the line is skipped. -/
def splitEq : List Char → Option (List Char × List Char)
  | [] => none
  | c :: rest =>
    if c = '=' then some ([], rest)
    else (splitEq rest).map (fun p => (c :: p.1, p.2))

/-- Process one line of the config file (the body of the `while (getline)`
loop, src lines 58-80).  `none` models an uncaught `std::stoi` exception. -/
def parse_line (cfg : Config) (line : List Char) : Option Config :=
  if line = [] then some cfg
  else if line.head? = some '#' then some cfg
  else
    match splitEq line with
    | none => some cfg
    | some (k, v) =>
      let key := trim k
      let value := trim v
      if key = "socket_path".toList then some { cfg with socket_path := value }
      else if key = "message_format".toList then some { cfg with message_format := value }
      else if key = "target_rate".toList then
        (stoi value).map (fun n => { cfg with target_rate := n })
      else if key = "duration".toList then
        (stoi value).map (fun n => { cfg with duration := n })
      else if key = "batch_size".toList then
        (stoi value).map (fun n => { cfg with batch_size := n })
      else if key = "verbose".toList then
        some { cfg with verbose := (value = "true".toList || value = "1".toList) }
      else some cfg

/-- Model of `load_config` applied to the lines of an existing config file
(src lines 40-83): defaults are set first, then every line is processed in
order.  No validation of the numeric fields is performed. -/
def load_config (lines : List (List Char)) : Option Config :=
  lines.foldlM parse_line defaultConfig

/-- Twos-complement wrap of a mathematical integer into a 32-bit signed
`int`, the effect of the overflowing C++ `int` multiplication. -/
def int32ofInt (n : Int) : Int := (n + 2 ^ 31) % 2 ^ 32 - 2 ^ 31

/-- The batch interval in microseconds computed at src lines 189-190:
`(config.batch_size * 1000000) / config.target_rate` in C++ `int`
arithmetic — the product wraps at 32 bits and the division truncates
toward zero. -/
def batch_interval_us (cfg : Config) : Int :=
  (int32ofInt (cfg.batch_size * 1000000)).tdiv cfg.target_rate

/-- Model of the C++ `Stats` counters (src lines 29-34). -/
structure Stats where
  messages_sent : Nat
  bytes_sent : Nat
  errors : Nat
deriving DecidableEq

/-- Oracle for all interaction of the loop with the outside world:
`connectOk n` is the success of the n-th `connect_to_socket` call (call 0 is
the initial connect), `sendRet n` the return value of the n-th `send`
syscall, `flag n` the value of the n-th read of the atomic `running` flag,
and `elapsedSec n` the elapsed-seconds reading of the n-th duration check. -/
structure World where
  connectOk : Nat → Bool
  sendRet : Nat → Int
  flag : Nat → Bool
  elapsedSec : Nat → Int

/-- State threaded through the pacing loop of `run_test`: the message
counter, the statistics, the positions in the oracle streams, the number of
completed batch ticks and the absolute next-batch time (microseconds
relative to `test_start`). -/
structure LoopState where
  counter : Nat
  stats : Stats
  pollIdx : Nat
  sendIdx : Nat
  connIdx : Nat
  tickIdx : Nat
  ticks : Nat
  nextBatchTime : Int
deriving DecidableEq

/-- State change of one failed send (src lines 212-225): the message was
formatted (counter consumed), one flag poll and one send result were
consumed, the error counter is incremented and one reconnect attempt
consumes one connect result. -/
def errStep (st : LoopState) : LoopState :=
  { st with
    pollIdx := st.pollIdx + 1
    sendIdx := st.sendIdx + 1
    counter := st.counter + 1
    stats := { st.stats with errors := st.stats.errors + 1 }
    connIdx := st.connIdx + 1 }

/-- State change of one successful send (src lines 207-211 and 226-229): the
message was formatted, one flag poll and one send result were consumed, the
message and the reported byte count are recorded. -/
def okStep (w : World) (st : LoopState) : LoopState :=
  { st with
    pollIdx := st.pollIdx + 1
    sendIdx := st.sendIdx + 1
    counter := st.counter + 1
    stats := { st.stats with
      messages_sent := st.stats.messages_sent + 1
      bytes_sent := st.stats.bytes_sent + (w.sendRet st.sendIdx).toNat } }

/-- One batch: the inner `for` loop of `run_test` (src lines 207-230), by
recursion on the remaining iteration count.  Each iteration first reads the
`running` flag (the `&& running` in the loop condition), then formats a
message with the current counter (always incrementing it), then attempts the
send.  A negative send return increments the error counter and triggers
exactly one reconnect attempt; a failed reconnect aborts the whole run with
exit code `1` (the `return 1` at src line 224).  Returns the final state, the
fatal exit code if any, and the counters of the messages formatted in this
batch. -/
def sendBatch (w : World) : Nat → LoopState → LoopState × Option Int × List Nat
  | 0, st => (st, none, [])
  | n + 1, st =>
    if w.flag st.pollIdx = false then
      ({ st with pollIdx := st.pollIdx + 1 }, none, [])
    else if w.sendRet st.sendIdx < 0 then
      if w.connectOk st.connIdx = false then
        (errStep st, some 1, [st.counter])
      else
        match sendBatch w n (errStep st) with
        | (stR, res, cs) => (stR, res, st.counter :: cs)
    else
      match sendBatch w n (okStep w st) with
      | (stR, res, cs) => (stR, res, st.counter :: cs)

/-- The outer `while (running)` loop of `run_test` (src lines 198-242),
indexed by fuel (the interpreter returns `none` if the loop does not
terminate within `fuel` iterations).  Each iteration reads the `running`
flag, performs the duration check (`elapsed >= config.duration` breaks the
loop), runs one batch, and on the non-fatal path advances `next_batch_time`
by the batch interval (src line 240).  Returns the final state, the exit
code, whether the final statistics snapshot is printed (`print_stats(stats,
true)` at src line 244 runs only when the loop is left normally), and the
counters of all formatted messages. -/
def runLoop (w : World) (cfg : Config) : Nat → LoopState →
    Option (LoopState × Int × Bool × List Nat)
  | 0, _ => none
  | fuel + 1, st =>
    if w.flag st.pollIdx = false then
      some ({ st with pollIdx := st.pollIdx + 1 }, 0, true, [])
    else if cfg.duration ≤ w.elapsedSec st.tickIdx then
      some ({ st with pollIdx := st.pollIdx + 1, tickIdx := st.tickIdx + 1 }, 0, true, [])
    else
      match sendBatch w cfg.batch_size.toNat
          { st with pollIdx := st.pollIdx + 1, tickIdx := st.tickIdx + 1 } with
      | (st3, some code, cs) => some (st3, code, false, cs)
      | (st3, none, cs) =>
        match runLoop w cfg fuel { st3 with
            nextBatchTime := st3.nextBatchTime + batch_interval_us cfg
            ticks := st3.ticks + 1 } with
        | none => none
        | some (st5, code, fp, cs2) => some (st5, code, fp, cs ++ cs2)

/-- Result of one `run_test` call: the exit code, the final statistics, whether
the final snapshot was printed, the counters rendered into the formatted
messages (in order), and the total number of connect attempts made. -/
structure RunResult where
  exit_code : Int
  stats : Stats
  finalPrinted : Bool
  formatted : List Nat
  connectAttempts : Nat
deriving DecidableEq

/-- Loop state at entry of the `while` loop: counters zero, the initial
connect already performed (`connIdx = 1`), `next_batch_time = test_start`
(taken as origin 0). -/
def initState : LoopState :=
  { counter := 0, stats := ⟨0, 0, 0⟩, pollIdx := 0, sendIdx := 0
    connIdx := 1, tickIdx := 0, ticks := 0, nextBatchTime := 0 }

/-- Model of `run_test` (src lines 173-248).  The initial connect attempt
happens before anything else; its failure returns exit code 1 without
printing final statistics.  Otherwise the pacing loop runs. -/
def run_test (w : World) (cfg : Config) (fuel : Nat) : Option RunResult :=
  if w.connectOk 0 = false then
    some ⟨1, ⟨0, 0, 0⟩, false, [], 1⟩
  else
    match runLoop w cfg fuel initState with
    | none => none
    | some (st, code, fp, cs) => some ⟨code, st.stats, fp, cs, st.connIdx⟩

/-- Model of the rate derivation in `print_stats` (src lines 147-171): the
function only loads the counters (it takes the stats by const reference and
returns them unchanged) and derives `messages/elapsed` and `bytes/elapsed`,
each defined as 0 unless `elapsed > 0`.  The C++ doubles are modelled as
exact rationals. -/
def print_stats (s : Stats) (elapsed : ℚ) : Stats × ℚ × ℚ :=
  (s,
   if 0 < elapsed then (s.messages_sent : ℚ) / elapsed else 0,
   if 0 < elapsed then (s.bytes_sent : ℚ) / elapsed else 0)

/-! Concrete environments and configurations used to instantiate the
theorems below. -/

/-- Environment where every connect succeeds, every send writes 5 bytes, the
`running` flag is never cleared, and the duration check reads 0 s on the
first tick and 100 s afterwards. -/
def wAllOk : World :=
  ⟨fun _ => true, fun _ => 5, fun _ => true, fun n => if n = 0 then 0 else 100⟩

/-- The default configuration with `target_rate = 0`, as produced by a config
file containing the single line `target_rate=0`. -/
def cfgZero : Config := { defaultConfig with target_rate := 0 }

/-- Environment where only the initial connect succeeds and every send fails:
the first send failure triggers a reconnect that fails. -/
def wFail : World := ⟨fun n => n == 0, fun _ => -1, fun _ => true, fun _ => 0⟩

/-- A small two-message-batch configuration. -/
def cfgFail : Config := { defaultConfig with duration := 10, batch_size := 2 }

/-- Single-message template `"x"`, one message per batch, 1-second duration. -/
def cfgP : Config :=
  { defaultConfig with message_format := "x".toList, batch_size := 1, duration := 1 }

/-- Environment whose single send reports 1 byte written — one byte less than
the 2-byte message (`"x"` plus the newline): a partial write. -/
def wPartial : World :=
  ⟨fun _ => true, fun _ => 1, fun _ => true, fun n => if n = 0 then 0 else 5⟩

/-- Five messages per batch, 1-second duration. -/
def cfgB : Config :=
  { defaultConfig with message_format := "x".toList, batch_size := 5, duration := 1 }

/-- Environment where exactly the third send of the run (index 2) fails and
every reconnect succeeds. -/
def wMid : World :=
  ⟨fun _ => true, fun j => if j = 2 then -1 else 2, fun _ => true,
   fun n => if n = 0 then 0 else 5⟩

/-- Environment where the cancellation flag is never set (`running` stays
`true` forever) and elapsed time reads 0 s. -/
def wNoCancel : World := ⟨fun _ => true, fun _ => 0, fun _ => true, fun _ => 0⟩

/-- The default configuration with `duration = 0`. -/
def cfgD0 : Config := { defaultConfig with duration := 0 }

/-- Environment where every third send (indices 0, 3, 6, …) fails and all
reconnects succeed: a run with several send failures. -/
def wC4 : World :=
  ⟨fun _ => true, fun j => if j % 3 = 0 then -1 else 7, fun _ => true,
   fun n => if n = 0 then 0 else 5⟩

/-- Four messages per batch, 1-second duration. -/
def cfgC4 : Config := { defaultConfig with batch_size := 4, duration := 1 }

/-- Environment where the `running` flag reads `true` for the first two polls
and `false` from the third poll on (cancellation arrives mid-batch). -/
def wCancel : World :=
  ⟨fun _ => true, fun _ => 0, fun n => n < 2, fun _ => 0⟩

/-- Default configuration with `batch_size = 3000`: the 32-bit product
`3000 * 1000000` overflows. -/
def cfg3000 : Config := { defaultConfig with batch_size := 3000 }

end SyslogInjector
namespace SyslogInjector

theorem replaceFirst_of_none {hay pat : List Char} (repl : List Char)
    (h : strFind pat hay = none) : replaceFirst hay pat repl = hay := by
  simp [replaceFirst, h]

theorem sendBatch_counters (w : World) :
    ∀ n st st' res cs, sendBatch w n st = (st', res, cs) →
      cs = List.range' st.counter cs.length ∧ st'.counter = st.counter + cs.length := by
  intro n
  induction n with
  | zero =>
    intro st st' res cs h
    simp only [sendBatch, Prod.mk.injEq] at h
    obtain ⟨h1, _, h3⟩ := h
    subst h1; subst h3
    simp
  | succ n ih =>
    intro st st' res cs h
    simp only [sendBatch] at h
    split at h
    · simp only [Prod.mk.injEq] at h
      obtain ⟨h1, _, h3⟩ := h
      subst h1; subst h3
      simp
    · split at h
      · split at h
        · simp only [Prod.mk.injEq] at h
          obtain ⟨h1, _, h3⟩ := h
          subst h1; subst h3
          simp [errStep, List.range']
        · rcases hrec : sendBatch w n (errStep st) with ⟨stR, res2, cs2⟩
          rw [hrec] at h
          simp only [Prod.mk.injEq] at h
          obtain ⟨h1, _, h3⟩ := h
          subst h1; subst h3
          obtain ⟨ih1, ih2⟩ := ih _ _ _ _ hrec
          simp only [errStep] at ih1 ih2
          refine ⟨?_, ?_⟩
          · simp only [List.length_cons, List.range'_succ]
            exact congrArg _ ih1
          · simp only [List.length_cons]
            omega
      · rcases hrec : sendBatch w n (okStep w st) with ⟨stR, res2, cs2⟩
        rw [hrec] at h
        simp only [Prod.mk.injEq] at h
        obtain ⟨h1, _, h3⟩ := h
        subst h1; subst h3
        obtain ⟨ih1, ih2⟩ := ih _ _ _ _ hrec
        simp only [okStep] at ih1 ih2
        refine ⟨?_, ?_⟩
        · simp only [List.length_cons, List.range'_succ]
          exact congrArg _ ih1
        · simp only [List.length_cons]
          omega

theorem sendBatch_fatal (w : World) :
    ∀ n st st' code cs, sendBatch w n st = (st', some code, cs) → code = 1 := by
  intro n
  induction n with
  | zero =>
    intro st st' code cs h
    simp only [sendBatch, Prod.mk.injEq] at h
    exact absurd h.2.1 (by simp)
  | succ n ih =>
    intro st st' code cs h
    simp only [sendBatch] at h
    split at h
    · simp only [Prod.mk.injEq] at h
      exact absurd h.2.1 (by simp)
    · split at h
      · split at h
        · simp only [Prod.mk.injEq] at h
          obtain ⟨_, h2, _⟩ := h
          exact (Option.some.injEq _ _ ▸ h2).symm
        · rcases hrec : sendBatch w n (errStep st) with ⟨stR, res2, cs2⟩
          rw [hrec] at h
          simp only [Prod.mk.injEq] at h
          obtain ⟨_, h2, _⟩ := h
          subst h2
          exact ih _ _ _ _ hrec
      · rcases hrec : sendBatch w n (okStep w st) with ⟨stR, res2, cs2⟩
        rw [hrec] at h
        simp only [Prod.mk.injEq] at h
        obtain ⟨_, h2, _⟩ := h
        subst h2
        exact ih _ _ _ _ hrec

theorem sendBatch_preserves (w : World) :
    ∀ n st st' res cs, sendBatch w n st = (st', res, cs) →
      st'.ticks = st.ticks ∧ st'.nextBatchTime = st.nextBatchTime := by
  intro n
  induction n with
  | zero =>
    intro st st' res cs h
    simp only [sendBatch, Prod.mk.injEq] at h
    obtain ⟨h1, _, _⟩ := h
    subst h1
    exact ⟨rfl, rfl⟩
  | succ n ih =>
    intro st st' res cs h
    simp only [sendBatch] at h
    split at h
    · simp only [Prod.mk.injEq] at h
      obtain ⟨h1, _, _⟩ := h
      subst h1
      exact ⟨rfl, rfl⟩
    · split at h
      · split at h
        · simp only [Prod.mk.injEq] at h
          obtain ⟨h1, _, _⟩ := h
          subst h1
          exact ⟨rfl, rfl⟩
        · rcases hrec : sendBatch w n (errStep st) with ⟨stR, res2, cs2⟩
          rw [hrec] at h
          simp only [Prod.mk.injEq] at h
          obtain ⟨h1, _, _⟩ := h
          subst h1
          simpa [errStep] using ih _ _ _ _ hrec
      · rcases hrec : sendBatch w n (okStep w st) with ⟨stR, res2, cs2⟩
        rw [hrec] at h
        simp only [Prod.mk.injEq] at h
        obtain ⟨h1, _, _⟩ := h
        subst h1
        simpa [okStep] using ih _ _ _ _ hrec

theorem sendBatch_no_neg (w : World) :
    ∀ n st st' res cs, (∀ j, j < n → 0 ≤ w.sendRet (st.sendIdx + j)) →
      sendBatch w n st = (st', res, cs) →
      st'.stats.errors = st.stats.errors ∧ st'.connIdx = st.connIdx ∧ res = none := by
  intro n
  induction n with
  | zero =>
    intro st st' res cs _ h
    simp only [sendBatch, Prod.mk.injEq] at h
    obtain ⟨h1, h2, _⟩ := h
    subst h1
    exact ⟨rfl, rfl, h2.symm⟩
  | succ n ih =>
    intro st st' res cs hnn h
    simp only [sendBatch] at h
    split at h
    · simp only [Prod.mk.injEq] at h
      obtain ⟨h1, h2, _⟩ := h
      subst h1
      exact ⟨rfl, rfl, h2.symm⟩
    · split at h
      · exfalso
        have h0 := hnn 0 (Nat.succ_pos n)
        simp only [Nat.add_zero] at h0
        omega
      · rcases hrec : sendBatch w n (okStep w st) with ⟨stR, res2, cs2⟩
        rw [hrec] at h
        simp only [Prod.mk.injEq] at h
        obtain ⟨h1, h2, _⟩ := h
        subst h1; subst h2
        have hshift : ∀ j, j < n → 0 ≤ w.sendRet ((okStep w st).sendIdx + j) := by
          intro j hj
          have := hnn (j + 1) (by omega)
          simp only [okStep]
          have harr : st.sendIdx + 1 + j = st.sendIdx + (j + 1) := by omega
          rw [harr]
          exact this
        simpa [okStep] using ih _ _ _ _ hshift hrec

theorem sendBatch_flag_stop (w : World) :
    ∀ n st st' res cs j, w.flag (st.pollIdx + j) = false →
      sendBatch w n st = (st', res, cs) → cs.length ≤ j := by
  intro n
  induction n with
  | zero =>
    intro st st' res cs j _ h
    simp only [sendBatch, Prod.mk.injEq] at h
    obtain ⟨_, _, h3⟩ := h
    subst h3
    simp
  | succ n ih =>
    intro st st' res cs j hj h
    simp only [sendBatch] at h
    split at h
    · simp only [Prod.mk.injEq] at h
      obtain ⟨_, _, h3⟩ := h
      subst h3
      simp
    · rename_i hf
      rcases j with _ | j
      · exfalso
        simp only [Nat.add_zero] at hj
        exact hf hj
      · split at h
        · split at h
          · simp only [Prod.mk.injEq] at h
            obtain ⟨_, _, h3⟩ := h
            subst h3
            simp
          · rcases hrec : sendBatch w n (errStep st) with ⟨stR, res2, cs2⟩
            rw [hrec] at h
            simp only [Prod.mk.injEq] at h
            obtain ⟨_, _, h3⟩ := h
            subst h3
            have hj' : w.flag ((errStep st).pollIdx + j) = false := by
              simp only [errStep]
              have harr : st.pollIdx + 1 + j = st.pollIdx + (j + 1) := by omega
              rw [harr]
              exact hj
            have := ih _ _ _ _ _ hj' hrec
            simp only [List.length_cons]
            omega
        · rcases hrec : sendBatch w n (okStep w st) with ⟨stR, res2, cs2⟩
          rw [hrec] at h
          simp only [Prod.mk.injEq] at h
          obtain ⟨_, _, h3⟩ := h
          subst h3
          have hj' : w.flag ((okStep w st).pollIdx + j) = false := by
            simp only [okStep]
            have harr : st.pollIdx + 1 + j = st.pollIdx + (j + 1) := by omega
            rw [harr]
            exact hj
          have := ih _ _ _ _ _ hj' hrec
          simp only [List.length_cons]
          omega


theorem runLoop_counters (w : World) (cfg : Config) :
    ∀ fuel st st' code fp cs, runLoop w cfg fuel st = some (st', code, fp, cs) →
      cs = List.range' st.counter cs.length ∧ st'.counter = st.counter + cs.length := by
  intro fuel
  induction fuel with
  | zero =>
    intro st st' code fp cs h
    simp only [runLoop] at h
    exact Option.noConfusion h
  | succ fuel ih =>
    intro st st' code fp cs h
    simp only [runLoop] at h
    split at h
    · have h2 := Option.some.inj h
      simp only [Prod.mk.injEq] at h2
      obtain ⟨h1, _, _, h4⟩ := h2
      subst h1; subst h4
      simp
    · split at h
      · have h2 := Option.some.inj h
        simp only [Prod.mk.injEq] at h2
        obtain ⟨h1, _, _, h4⟩ := h2
        subst h1; subst h4
        simp
      · rcases hsb : sendBatch w cfg.batch_size.toNat
            { st with pollIdx := st.pollIdx + 1, tickIdx := st.tickIdx + 1 } with ⟨st3, res, cs1⟩
        rw [hsb] at h
        cases res with
        | some c =>
          dsimp only at h
          have h2 := Option.some.inj h
          simp only [Prod.mk.injEq] at h2
          obtain ⟨h1, _, _, h4⟩ := h2
          subst h1; subst h4
          have := sendBatch_counters w _ _ _ _ _ hsb
          simpa using this
        | none =>
          dsimp only at h
          rcases hrec : runLoop w cfg fuel { st3 with
              nextBatchTime := st3.nextBatchTime + batch_interval_us cfg
              ticks := st3.ticks + 1 } with _ | ⟨st5, code2, fp2, cs2⟩
          · rw [hrec] at h
            exact Option.noConfusion h
          · rw [hrec] at h
            dsimp only at h
            have h2 := Option.some.inj h
            simp only [Prod.mk.injEq] at h2
            obtain ⟨h1, _, _, h4⟩ := h2
            subst h1; subst h4
            obtain ⟨hb1, hb2⟩ := sendBatch_counters w _ _ _ _ _ hsb
            obtain ⟨hr1, hr2⟩ := ih _ _ _ _ _ hrec
            simp only at hb1 hb2 hr1 hr2
            constructor
            · rw [List.length_append]
              have hap := List.range'_append st.counter cs1.length cs2.length 1
              simp only [one_mul] at hap
              rw [Nat.add_comm cs2.length cs1.length] at hap
              rw [hb2] at hr1
              conv_lhs => rw [hb1, hr1]
              exact hap
            · rw [List.length_append]
              omega

theorem runLoop_exit (w : World) (cfg : Config) :
    ∀ fuel st st' code fp cs, runLoop w cfg fuel st = some (st', code, fp, cs) →
      (code = 0 ∧ fp = true) ∨ (code = 1 ∧ fp = false) := by
  intro fuel
  induction fuel with
  | zero =>
    intro st st' code fp cs h
    simp only [runLoop] at h
    exact Option.noConfusion h
  | succ fuel ih =>
    intro st st' code fp cs h
    simp only [runLoop] at h
    split at h
    · have h2 := Option.some.inj h
      simp only [Prod.mk.injEq] at h2
      exact Or.inl ⟨h2.2.1.symm, h2.2.2.1.symm⟩
    · split at h
      · have h2 := Option.some.inj h
        simp only [Prod.mk.injEq] at h2
        exact Or.inl ⟨h2.2.1.symm, h2.2.2.1.symm⟩
      · rcases hsb : sendBatch w cfg.batch_size.toNat
            { st with pollIdx := st.pollIdx + 1, tickIdx := st.tickIdx + 1 } with ⟨st3, res, cs1⟩
        cases res with
        | some c =>
          rw [hsb] at h
          dsimp only at h
          have h2 := Option.some.inj h
          simp only [Prod.mk.injEq] at h2
          have hc := sendBatch_fatal w _ _ _ _ _ hsb
          exact Or.inr ⟨h2.2.1.symm.trans hc, h2.2.2.1.symm⟩
        | none =>
          rw [hsb] at h
          dsimp only at h
          rcases hrec : runLoop w cfg fuel { st3 with
              nextBatchTime := st3.nextBatchTime + batch_interval_us cfg
              ticks := st3.ticks + 1 } with _ | ⟨st5, code2, fp2, cs2⟩
          · rw [hrec] at h
            exact Option.noConfusion h
          · rw [hrec] at h
            dsimp only at h
            have h2 := Option.some.inj h
            simp only [Prod.mk.injEq] at h2
            obtain ⟨_, hc, hf, _⟩ := h2
            subst hc; subst hf
            exact ih _ _ _ _ _ hrec

theorem runLoop_anchor (w : World) (cfg : Config) :
    ∀ fuel st st' code fp cs, runLoop w cfg fuel st = some (st', code, fp, cs) →
      st.ticks ≤ st'.ticks ∧
      st'.nextBatchTime =
        st.nextBatchTime + ((st'.ticks - st.ticks : ℕ) : ℤ) * batch_interval_us cfg := by
  intro fuel
  induction fuel with
  | zero =>
    intro st st' code fp cs h
    simp only [runLoop] at h
    exact Option.noConfusion h
  | succ fuel ih =>
    intro st st' code fp cs h
    simp only [runLoop] at h
    split at h
    · have h2 := Option.some.inj h
      simp only [Prod.mk.injEq] at h2
      obtain ⟨h1, _, _, _⟩ := h2
      subst h1
      simp
    · split at h
      · have h2 := Option.some.inj h
        simp only [Prod.mk.injEq] at h2
        obtain ⟨h1, _, _, _⟩ := h2
        subst h1
        simp
      · rcases hsb : sendBatch w cfg.batch_size.toNat
            { st with pollIdx := st.pollIdx + 1, tickIdx := st.tickIdx + 1 } with ⟨st3, res, cs1⟩
        rw [hsb] at h
        have hp := sendBatch_preserves w _ _ _ _ _ hsb
        simp only at hp
        cases res with
        | some c =>
          dsimp only at h
          have h2 := Option.some.inj h
          simp only [Prod.mk.injEq] at h2
          obtain ⟨h1, _, _, _⟩ := h2
          subst h1
          refine ⟨by omega, ?_⟩
          rw [hp.2, hp.1]
          simp
        | none =>
          dsimp only at h
          rcases hrec : runLoop w cfg fuel { st3 with
              nextBatchTime := st3.nextBatchTime + batch_interval_us cfg
              ticks := st3.ticks + 1 } with _ | ⟨st5, code2, fp2, cs2⟩
          · rw [hrec] at h
            exact Option.noConfusion h
          · rw [hrec] at h
            dsimp only at h
            have h2 := Option.some.inj h
            simp only [Prod.mk.injEq] at h2
            obtain ⟨h1, _, _, _⟩ := h2
            subst h1
            obtain ⟨hr1, hr2⟩ := ih _ _ _ _ _ hrec
            simp only at hr1 hr2
            refine ⟨by omega, ?_⟩
            rw [hr2, hp.2]
            have hcast : ((st5.ticks - st.ticks : ℕ) : ℤ) =
                ((st5.ticks - (st3.ticks + 1) : ℕ) : ℤ) + 1 := by omega
            rw [hcast]
            ring

set_option maxRecDepth 8192 in
/-- Claim C1 (code bug): the program performs no validation of
`target_rate`/`batch_size`.  A config file consisting of the single line
`target_rate=0` is accepted by `load_config` (yielding `cfgZero` with
`target_rate = 0`), and `run_test` then makes the connection attempt and
proceeds to send a full batch — so the batch-interval computation
`(batch_size * 1000000) / target_rate` is evaluated with divisor 0
(undefined behaviour in the C++), contradicting the claim that such
configurations are rejected before any connection attempt. -/
theorem c1_no_validation_reaches_division :
    load_config ["target_rate=0".toList] = some cfgZero ∧
    cfgZero.target_rate = 0 ∧
    (run_test wAllOk cfgZero 3).map
      (fun r => (r.connectAttempts, r.formatted.length, r.exit_code)) = some (1, 100, 0) := by
  refine ⟨by decide, rfl, by decide⟩

/-- Counterexample to claim C2: in the environment `wFail` the first send
fails and the reconnect fails; `run_test` exits with code 1 but the final
statistics snapshot is NOT printed (the `return 1` at src line 224 skips
`print_stats(stats, true)`), contradicting the claim that the final snapshot
is still printed. -/
theorem c2_reconnect_failure_counterexample :
    run_test wFail cfgFail 3 = some ⟨1, ⟨0, 0, 1⟩, false, [0], 2⟩ := by decide

/-- Claim C2 (amended): whenever a reconnect after a send failure fails, the
run terminates immediately (one unit of loop fuel suffices, for any
remaining fuel) with exit code 1 — but the final statistics snapshot is NOT
printed; every terminating run either exits 0 having printed the final
snapshot, or exits 1 without printing it. -/
theorem c2_fatal_reconnect_behaviour :
    (∀ w cfg fuel r, run_test w cfg fuel = some r →
      (r.exit_code = 0 ∧ r.finalPrinted = true) ∨
      (r.exit_code = 1 ∧ r.finalPrinted = false)) ∧
    (∀ (w : World) (cfg : Config) (st : LoopState) (fuel : Nat),
      w.flag st.pollIdx = true → w.flag (st.pollIdx + 1) = true →
      w.elapsedSec st.tickIdx < cfg.duration → 0 < cfg.batch_size →
      w.sendRet st.sendIdx < 0 → w.connectOk st.connIdx = false →
      runLoop w cfg (fuel + 1) st =
        some (errStep { st with pollIdx := st.pollIdx + 1, tickIdx := st.tickIdx + 1 },
          1, false, [st.counter])) := by
  constructor
  · intro w cfg fuel r h
    unfold run_test at h
    split at h
    · have h2 := Option.some.inj h
      subst h2
      exact Or.inr ⟨rfl, rfl⟩
    · rcases hrec : runLoop w cfg fuel initState with _ | ⟨st, code, fp, cs⟩
      · rw [hrec] at h
        exact Option.noConfusion h
      · rw [hrec] at h
        dsimp only at h
        have h2 := Option.some.inj h
        subst h2
        simpa using runLoop_exit w cfg fuel _ _ _ _ _ hrec
  · intro w cfg st fuel h1 h2 h3 h4 h5 h6
    obtain ⟨m, hm⟩ : ∃ m, cfg.batch_size.toNat = m + 1 :=
      ⟨cfg.batch_size.toNat - 1, by omega⟩
    simp only [runLoop, h1, hm, sendBatch, h2, h5, h6, not_le.mpr h3]
    simp

/-- Counterexample to claim C3: with `duration = 0` and the cancellation
flag never set (`wNoCancel.flag` is constantly `true`), the run stops
immediately on the first tick with zero messages sent — the
duration-exceeded check `elapsed >= duration` fires at once — contradicting
the claim that the scheduler runs until the cancellation flag is set. -/
theorem c3_counterexample :
    cfgD0.duration = 0 ∧
    run_test wNoCancel cfgD0 1 = some ⟨0, ⟨0, 0, 0⟩, true, [], 1⟩ := by decide

/-- Claim C3 (amended): a configured duration of 0 means "stop immediately":
since `elapsed >= 0` always holds, the duration-exceeded check fires on the
very first batch tick and the loop ends gracefully with no messages sent,
regardless of the cancellation flag. -/
theorem c3_duration_zero_stops_immediately (w : World) (cfg : Config) (fuel : Nat)
    (st : LoopState) (hd : cfg.duration = 0) (hf : w.flag st.pollIdx = true)
    (he : 0 ≤ w.elapsedSec st.tickIdx) :
    runLoop w cfg (fuel + 1) st =
      some ({ st with pollIdx := st.pollIdx + 1, tickIdx := st.tickIdx + 1 }, 0, true, []) := by
  simp only [runLoop, hf, hd, he]
  simp

/-- Witness for the amended claim C3 at a concrete input. -/
theorem c3_witness :
    runLoop wNoCancel cfgD0 1 initState =
      some ({ initState with pollIdx := 1, tickIdx := 1 }, 0, true, []) :=
  c3_duration_zero_stops_immediately wNoCancel cfgD0 0 initState rfl rfl (by decide)

/-- Claim C4: the counters rendered into the messages of a run are exactly
0, 1, 2, …: the value rendered into the N-th formatted message of the run is
N-1, zero-based, strictly increasing, with no duplicates and no gaps — for
every environment, in particular for runs containing send failures and
reconnects (a failed send also consumes its counter value, and its message
is part of the formatted sequence). -/
theorem c4_counter_sequence (w : World) (cfg : Config) (fuel : Nat) (r : RunResult)
    (h : run_test w cfg fuel = some r) :
    r.formatted = List.range r.formatted.length := by
  unfold run_test at h
  split at h
  · have h2 := Option.some.inj h
    subst h2
    simp
  · rcases hrec : runLoop w cfg fuel initState with _ | ⟨st, code, fp, cs⟩
    · rw [hrec] at h
      exact Option.noConfusion h
    · rw [hrec] at h
      dsimp only at h
      have h2 := Option.some.inj h
      subst h2
      have hc := (runLoop_counters w cfg fuel _ _ _ _ _ hrec).1
      simp only [initState] at hc
      dsimp only
      rw [List.range_eq_range']
      exact hc

/-- Witness for claim C4 at a concrete run with two send failures. -/
theorem c4_witness :
    (⟨0, ⟨2, 14, 2⟩, true, [0, 1, 2, 3], 3⟩ : RunResult).formatted =
      List.range (⟨0, ⟨2, 14, 2⟩, true, [0, 1, 2, 3], 3⟩ : RunResult).formatted.length :=
  c4_counter_sequence wC4 cfgC4 2 ⟨0, ⟨2, 14, 2⟩, true, [0, 1, 2, 3], 3⟩ (by decide)

/-- Witness for the amended claim C2 at a concrete input: the failed-reconnect
run exits 1 without the final snapshot. -/
theorem c2_witness :
    ((1 : Int) = 0 ∧ (false : Bool) = true) ∨ ((1 : Int) = 1 ∧ (false : Bool) = false) :=
  c2_fatal_reconnect_behaviour.1 wFail cfgFail 3 ⟨1, ⟨0, 0, 1⟩, false, [0], 2⟩ (by decide)

/-- Counterexample to claim C5: a partial write is NOT reported as an error.
The message (`"x"` plus newline) is 2 bytes, the send syscall reports only 1
byte written, yet the run records it as a success: `errors = 0`,
`messages_sent = 1` (only `sent < 0` is treated as a failure at src
line 212). -/
theorem c5_partial_write_counterexample :
    (format_message cfgP.message_format 0 [] [] []).length + 1 = 2 ∧
    wPartial.sendRet 0 = 1 ∧
    run_test wPartial cfgP 2 = some ⟨0, ⟨1, 1, 0⟩, true, [0], 1⟩ := by decide

/-- Claim C5 (amended): send reports an error only when the send call
returns a negative value (partial writes with a non-negative return are
recorded as successes, counting only the reported bytes); and for a single
mid-batch send failure followed by a successful reconnect, the error counter
increases by exactly one, exactly one reconnect is attempted
(`connectAttempts` goes from 1 to 2), and the remaining messages of the
batch are still sent (here: 4 of the 5 messages succeed, all 5 counters are
consumed). -/
theorem c5_single_failure_recovery :
    (run_test wMid cfgB 2 = some ⟨0, ⟨4, 8, 1⟩, true, [0, 1, 2, 3, 4], 2⟩) ∧
    (∀ (w : World) (n : Nat) (st st' : LoopState) (res : Option Int) (cs : List Nat),
      (∀ j, j < n → 0 ≤ w.sendRet (st.sendIdx + j)) →
      sendBatch w n st = (st', res, cs) →
      st'.stats.errors = st.stats.errors ∧ st'.connIdx = st.connIdx ∧ res = none) :=
  ⟨by decide, fun w n st st' res cs h1 h2 => sendBatch_no_neg w n st st' res cs h1 h2⟩

/-- Witness for the amended claim C5 at a concrete input: a batch whose send
returns are all non-negative produces no error and no reconnect. -/
theorem c5_witness :
    (⟨1, ⟨1, 1, 0⟩, 1, 1, 1, 0, 0, 0⟩ : LoopState).stats.errors = initState.stats.errors ∧
    (⟨1, ⟨1, 1, 0⟩, 1, 1, 1, 0, 0, 0⟩ : LoopState).connIdx = initState.connIdx ∧
    (none : Option Int) = none :=
  c5_single_failure_recovery.2 wPartial 1 initState
    ⟨1, ⟨1, 1, 0⟩, 1, 1, 1, 0, 0, 0⟩ none [0] (by decide) (by decide)

/-- Counterexample to claim C6: with `batch_size = 3000` (and the default
`target_rate = 1000`) the 32-bit product `3000 * 1000000` wraps and the
computed batch interval is `-1294967` µs, not the claimed
`3000 * 1_000_000 / 1000 = 3_000_000` µs. -/
theorem c6_interval_counterexample :
    batch_interval_us cfg3000 = -1294967 ∧
    cfg3000.batch_size * 1000000 / cfg3000.target_rate = 3000000 ∧
    batch_interval_us cfg3000 ≠ cfg3000.batch_size * 1000000 / cfg3000.target_rate := by
  decide

/-- Claim C6 (amended): on every batch tick the next scheduled boundary is
`previousBoundary + batchInterval` — after any terminating stretch of the
loop, `nextBatchTime` has advanced from its entry value by exactly
(number of completed ticks) × `batch_interval_us cfg`, anchored to the
previous boundary and never re-anchored to the current time; the interval is
computed once from the configuration, and it equals
`batchSize * 1_000_000 / targetRate` microseconds whenever the 32-bit
product `batch_size * 1000000` does not overflow. -/
theorem c6_anchored_schedule :
    (∀ (w : World) (cfg : Config) (fuel : Nat) (st st' : LoopState) (code : Int)
      (fp : Bool) (cs : List Nat), runLoop w cfg fuel st = some (st', code, fp, cs) →
      st.ticks ≤ st'.ticks ∧
      st'.nextBatchTime =
        st.nextBatchTime + ((st'.ticks - st.ticks : ℕ) : ℤ) * batch_interval_us cfg) ∧
    (∀ cfg : Config, 0 ≤ cfg.batch_size → cfg.batch_size * 1000000 < 2 ^ 31 →
      0 ≤ cfg.target_rate →
      batch_interval_us cfg = cfg.batch_size * 1000000 / cfg.target_rate) := by
  constructor
  · exact fun w cfg fuel st st' code fp cs h => runLoop_anchor w cfg fuel st st' code fp cs h
  · intro cfg hb hlt htr
    unfold batch_interval_us int32ofInt
    have hnn : (0 : ℤ) ≤ cfg.batch_size * 1000000 := mul_nonneg hb (by norm_num)
    have hmod : (cfg.batch_size * 1000000 + 2 ^ 31) % 2 ^ 32 =
        cfg.batch_size * 1000000 + 2 ^ 31 :=
      Int.emod_eq_of_lt (by omega) (by omega)
    rw [hmod]
    have hsub : cfg.batch_size * 1000000 + 2 ^ 31 - 2 ^ 31 = cfg.batch_size * 1000000 := by
      ring
    rw [hsub]
    exact Int.tdiv_eq_ediv hnn htr

/-- Witness for the amended claim C6 at concrete inputs: a one-tick run
advances `nextBatchTime` by exactly one batch interval, and the in-range
interval of the default configuration equals the mathematical formula. -/
theorem c6_witness :
    (initState.ticks ≤ (⟨1, ⟨1, 1, 0⟩, 3, 1, 1, 2, 1, 1000⟩ : LoopState).ticks ∧
      (⟨1, ⟨1, 1, 0⟩, 3, 1, 1, 2, 1, 1000⟩ : LoopState).nextBatchTime =
        initState.nextBatchTime +
          (((⟨1, ⟨1, 1, 0⟩, 3, 1, 1, 2, 1, 1000⟩ : LoopState).ticks - initState.ticks : ℕ) : ℤ) *
            batch_interval_us cfgP) ∧
    batch_interval_us defaultConfig =
      defaultConfig.batch_size * 1000000 / defaultConfig.target_rate :=
  ⟨c6_anchored_schedule.1 wPartial cfgP 2 initState
      ⟨1, ⟨1, 1, 0⟩, 3, 1, 1, 2, 1, 1000⟩ 0 true [0] (by decide),
   c6_anchored_schedule.2 defaultConfig (by decide) (by decide) (by decide)⟩

/-- Claim C7: `Render("{counter}-{missing}", 5)` yields `"5-{missing}"`; a
template containing none of the four recognized placeholders is returned
verbatim (unknown placeholders pass through unchanged); and each recognized
placeholder is replaced only at its first occurrence
(`"{counter}-{counter}"` renders to `"5-{counter}"`). -/
theorem c7_render_placeholders :
    (∀ ts host pid,
      format_message "{counter}-{missing}".toList 5 ts host pid = "5-{missing}".toList) ∧
    (∀ tpl c ts host pid,
      strFind "{counter}".toList tpl = none → strFind "{timestamp}".toList tpl = none →
      strFind "{hostname}".toList tpl = none → strFind "{pid}".toList tpl = none →
      format_message tpl c ts host pid = tpl) ∧
    (∀ ts host pid,
      format_message "{counter}-{counter}".toList 5 ts host pid = "5-{counter}".toList) := by
  refine ⟨?_, ?_, ?_⟩
  · intro ts host pid
    simp only [format_message]
    rw [show replaceFirst "{counter}-{missing}".toList "{counter}".toList
        (Nat.repr 5).toList = "5-{missing}".toList from by decide]
    rw [replaceFirst_of_none ts (by decide), replaceFirst_of_none host (by decide),
        replaceFirst_of_none pid (by decide)]
  · intro tpl c ts host pid h1 h2 h3 h4
    simp only [format_message]
    rw [replaceFirst_of_none _ h1, replaceFirst_of_none _ h2, replaceFirst_of_none _ h3,
        replaceFirst_of_none _ h4]
  · intro ts host pid
    simp only [format_message]
    rw [show replaceFirst "{counter}-{counter}".toList "{counter}".toList
        (Nat.repr 5).toList = "5-{counter}".toList from by decide]
    rw [replaceFirst_of_none ts (by decide), replaceFirst_of_none host (by decide),
        replaceFirst_of_none pid (by decide)]

/-- Witness for claim C7 at concrete inputs. -/
theorem c7_witness :
    format_message "{counter}-{missing}".toList 5 [] [] [] = "5-{missing}".toList ∧
    format_message "hello {missing} world".toList 7 [] [] [] =
      "hello {missing} world".toList :=
  ⟨c7_render_placeholders.1 [] [] [],
   c7_render_placeholders.2.1 "hello {missing} world".toList 7 [] [] []
    (by decide) (by decide) (by decide) (by decide)⟩

/-- Claim C8: the cancellation flag is polled before every individual send
within a batch (polls and send attempts alternate one-to-one), so if the
j-th poll of the batch reads `false`, at most j messages of that batch were
formatted and sent: once the flag is observed clear, no further message is
sent — shutdown latency is bounded by the one message in flight, not by a
full batch. -/
theorem c8_flag_polled_between_sends (w : World) (n : Nat) (st st' : LoopState)
    (res : Option Int) (cs : List Nat) (j : Nat)
    (hj : w.flag (st.pollIdx + j) = false) (h : sendBatch w n st = (st', res, cs)) :
    cs.length ≤ j :=
  sendBatch_flag_stop w n st st' res cs j hj h

/-- Witness for claim C8 at a concrete input: the flag goes false at the
third poll of a 5-message batch, and only 2 messages are sent. -/
theorem c8_witness : ([0, 1] : List Nat).length ≤ 2 :=
  c8_flag_polled_between_sends wCancel 5 initState
    ⟨2, ⟨2, 0, 0⟩, 3, 2, 1, 0, 0, 0⟩ none [0, 1] 2 (by decide) (by decide)

/-- Claim C9: the statistics snapshot leaves the counters unchanged (the
stats are taken by const reference and only loaded), and derives the message
rate as `messages/elapsed` and the byte rate as `bytes/elapsed`, both
defined as 0 whenever `elapsed <= 0` (rates are stated multiplicatively:
`rate * elapsed = count` in exact rational arithmetic). -/
theorem c9_snapshot_rates (s : Stats) (elapsed : ℚ) :
    (print_stats s elapsed).1 = s ∧
    (elapsed ≤ 0 → (print_stats s elapsed).2.1 = 0 ∧ (print_stats s elapsed).2.2 = 0) ∧
    (0 < elapsed →
      (print_stats s elapsed).2.1 * elapsed = (s.messages_sent : ℚ) ∧
      (print_stats s elapsed).2.2 * elapsed = (s.bytes_sent : ℚ)) := by
  refine ⟨rfl, ?_, ?_⟩
  · intro h
    simp [print_stats, not_lt.mpr h]
  · intro h
    simp only [print_stats, if_pos h]
    exact ⟨div_mul_cancel₀ _ (ne_of_gt h), div_mul_cancel₀ _ (ne_of_gt h)⟩

/-- Witness for claim C9 at concrete inputs. -/
theorem c9_witness :
    (print_stats ⟨3, 6, 0⟩ 2).2.1 * 2 = ((⟨3, 6, 0⟩ : Stats).messages_sent : ℚ) ∧
    (print_stats ⟨3, 6, 0⟩ 0).2.1 = 0 :=
  ⟨((c9_snapshot_rates ⟨3, 6, 0⟩ 2).2.2 (by norm_num)).1,
   ((c9_snapshot_rates ⟨3, 6, 0⟩ 0).2.1 (by norm_num)).1⟩

/-- Claim C10: for every configuration with `batch_size > 2147` (and a
positive 32-bit `target_rate`) the `int` product `batch_size * 1000000`
exceeds the 32-bit signed range (so it wraps modulo 2^32), and the computed
batch interval differs from the mathematical
`batchSize * 1_000_000 / targetRate` microseconds. -/
theorem c10_interval_overflow (cfg : Config) (h1 : 2147 < cfg.batch_size)
    (h2 : cfg.batch_size ≤ 2 ^ 31 - 1) (h3 : 0 < cfg.target_rate)
    (h4 : cfg.target_rate ≤ 2 ^ 31 - 1) :
    2 ^ 31 ≤ cfg.batch_size * 1000000 ∧
    batch_interval_us cfg ≠ cfg.batch_size * 1000000 / cfg.target_rate := by
  have ha : (2148 : ℤ) * 1000000 ≤ cfg.batch_size * 1000000 := by
    apply mul_le_mul_of_nonneg_right _ (by norm_num)
    omega
  refine ⟨by linarith, ?_⟩
  unfold batch_interval_us int32ofInt
  set a := cfg.batch_size * 1000000 with hadef
  set tr := cfg.target_rate with htrdef
  set m := (a + 2 ^ 31) % 2 ^ 32 with hmdef
  have hm0 : 0 ≤ m := Int.emod_nonneg _ (by norm_num)
  have hm1 : m < 2 ^ 32 := Int.emod_lt_of_pos _ (by norm_num)
  have hdiv := Int.emod_add_ediv (a + 2 ^ 31) (2 ^ 32)
  rw [← hmdef] at hdiv
  set k := (a + 2 ^ 31) / 2 ^ 32 with hkdef
  have hk32 : (516353 : ℤ) ≤ 2 ^ 32 * k := by linarith
  have hk : 1 ≤ k := by nlinarith
  have haw : a = (m - 2 ^ 31) + 2 ^ 32 * k := by linarith
  by_cases hw : 0 ≤ m - 2 ^ 31
  · have hcomp : (m - 2 ^ 31).tdiv tr = (m - 2 ^ 31) / tr :=
      Int.tdiv_eq_ediv hw (le_of_lt h3)
    have hle1 : (m - 2 ^ 31) / tr * tr ≤ m - 2 ^ 31 := by
      have hmod2 := Int.emod_add_ediv (m - 2 ^ 31) tr
      have hmn := Int.emod_nonneg (m - 2 ^ 31) (ne_of_gt h3)
      nlinarith
    have key : (m - 2 ^ 31) / tr + 2 ≤ a / tr := by
      rw [Int.le_ediv_iff_mul_le h3]
      have h2tr : 2 * tr ≤ 2 ^ 32 := by omega
      have hkk : (2 : ℤ) ^ 32 ≤ 2 ^ 32 * k := by nlinarith
      nlinarith
    rw [hcomp]
    omega
  · push_neg at hw
    have hcomp : (m - 2 ^ 31).tdiv tr ≤ 0 := by
      have hneg : (m - 2 ^ 31).tdiv tr = -((2 ^ 31 - m).tdiv tr) := by
        rw [← Int.neg_tdiv]
        norm_num
      rw [hneg]
      have := Int.tdiv_nonneg (by linarith : (0 : ℤ) ≤ 2 ^ 31 - m) (le_of_lt h3)
      linarith
    have hrhs : 1 ≤ a / tr := by
      rw [Int.le_ediv_iff_mul_le h3]
      omega
    omega

/-- Witness for claim C10 at a concrete input: `batch_size = 3000`. -/
theorem c10_witness :
    2 ^ 31 ≤ cfg3000.batch_size * 1000000 ∧
    batch_interval_us cfg3000 ≠ cfg3000.batch_size * 1000000 / cfg3000.target_rate :=
  c10_interval_overflow cfg3000 (by decide) (by decide) (by decide) (by decide)

end SyslogInjector
